import Mathlib

/-!
Verification of the format-resolution and selection policy of the
YTDownloader repository (file downloader_service.py), as a shallow
embedding in Lean 4.  Python dictionaries produced by the service are
modelled as structures, absent keys as Option, Python string truthiness
explicitly, and the pure parts of the service's methods as Lean
functions translated clause by clause from the source.
-/

namespace YTD

/-- Boolean test that `p` is a leading segment of `l` (on character lists). -/
def isPrefOf : List Char → List Char → Bool
  | [], _ => true
  | _ :: _, [] => false
  | a :: as, b :: bs => a == b && isPrefOf as bs

/-- Boolean contiguous-substring test on character lists. -/
def containsSeq (pat : List Char) : List Char → Bool
  | [] => pat.isEmpty
  | c :: rest => isPrefOf pat (c :: rest) || containsSeq pat rest

/-- Split a character list at every occurrence of the separator `c`.
Alternatives of a yt-dlp selection expression are its pieces between
the slash separators. -/
def splitChar (c : Char) : List Char → List (List Char)
  | [] => [[]]
  | x :: xs =>
    if x = c then [] :: splitChar c xs
    else (splitChar c xs).modifyHead (x :: ·)

/-- Scanning check that every occurrence of the equals sign in the list is
immediately preceded by a less-than sign, i.e. every comparator written
with an equals sign is the ≤ comparator and never a bare equality
comparator.  The first argument is the character preceding the list. -/
def eqOk : Char → List Char → Bool
  | _, [] => true
  | p, c :: rest => ((c != '=') || (p == '<')) && eqOk c rest

/-- Python `or` on an optional string: `x or dflt` falls back to the
default when the value is missing or the empty string (falsy). -/
def pyOr (o : Option String) (dflt : String) : String :=
  match o with
  | some s => if s = "" then dflt else s
  | none => dflt

/-- Python truthiness of an optional string: present and non-empty. -/
def pyTruthy (o : Option String) : Bool :=
  match o with
  | some s => s != ""
  | none => false

/-- One entry of a yt-dlp `postprocessors` list, as built by
`get_download_options`.  The audio extractor carries `preferredcodec`
and `preferredquality`; the video convertor carries `preferedformat`
(the key is misspelt exactly as in the source). -/
structure Postprocessor where
  key : String
  preferredcodec : Option String := none
  preferredquality : Option String := none
  preferedformat : Option String := none
deriving DecidableEq

/-- The yt-dlp options dictionary built by `get_download_options`.
`format` and `postprocessors` are `none` when the corresponding key is
absent from the dictionary. -/
structure YdlOpts where
  outtmpl : String
  noplaylist : Bool
  merge_output_format : String
  format : Option String := none
  postprocessors : Option (List Postprocessor) := none
deriving DecidableEq

/-- The quality-token dispatch of `get_download_options` (video path):
each recognised token maps to the literal selection expression of the
source; any other token is interpolated into the custom template. -/
def videoFormat (quality : String) : String :=
  if quality = "best" then
    "bestvideo[height<=2160]+bestaudio/best[height<=2160]/bestvideo+bestaudio/best"
  else if quality = "worst" then
    "worst"
  else if quality = "4k" ∨ quality = "2160" then
    "bestvideo[height<=2160]+bestaudio/best[height<=2160]/best[height<=2160]"
  else if quality = "1440" then
    "bestvideo[height<=1440]+bestaudio/best[height<=1440]/best[height<=1440]"
  else if quality = "1080" then
    "bestvideo[height<=1080]+bestaudio/best[height<=1080]/best[height<=1080]"
  else if quality = "720" then
    "bestvideo[height<=720]+bestaudio/best[height<=720]/best[height<=720]"
  else if quality = "480" then
    "bestvideo[height<=480]+bestaudio/best[height<=480]/best[height<=480]"
  else if quality = "360" then
    "bestvideo[height<=360]+bestaudio/best[height<=360]/best[height<=360]"
  else
    "bestvideo[height<=" ++ quality ++ "]+bestaudio/best[height<=" ++ quality
      ++ "]/best[height<=" ++ quality ++ "]"

/-- Translation of `YouTubeDownloaderService.get_download_options`.
The service state enters only through the output directory used in the
output template. -/
def get_download_options (output_dir : String) (quality : String)
    (audio_only : Bool) (output_format : Option String) : YdlOpts :=
  let base : YdlOpts :=
    { outtmpl := output_dir ++ "/%(title)s.%(ext)s"
      noplaylist := true
      merge_output_format := "mp4" }
  if audio_only then
    { base with
      format := some "bestaudio/best"
      postprocessors := some [{ key := "FFmpegExtractAudio"
                                preferredcodec := some (pyOr output_format "mp3")
                                preferredquality := some "192" }] }
  else
    let withFmt : YdlOpts := { base with format := some (videoFormat quality) }
    if pyTruthy output_format then
      { withFmt with
        postprocessors := some [{ key := "FFmpegVideoConvertor"
                                  preferedformat := some (pyOr output_format "") }] }
    else
      withFmt

theorem pyOr_of_truthy (o : Option String) (d : String) (h : pyTruthy o = true) :
    pyOr o d = pyOr o "" := by
  cases o with
  | none => simp [pyTruthy] at h
  | some s =>
    simp only [pyTruthy, bne_iff_ne, ne_eq] at h
    simp [pyOr, h]

/-- Claim C1, counterexample: at the non-positive custom height "0" the
resolver does not fail; it returns an ordinary options dictionary with
the height interpolated verbatim into the selection expression. -/
theorem download_options_nonpositive_counterexample :
    get_download_options "downloads" "0" false none =
      { outtmpl := "downloads/%(title)s.%(ext)s"
        noplaylist := true
        merge_output_format := "mp4"
        format := some "bestvideo[height<=0]+bestaudio/best[height<=0]/best[height<=0]"
        postprocessors := none } := by
  decide

/-- Claim C1, amended: `get_download_options` never raises; for every
quality request, including non-positive and non-numeric custom tokens,
it returns an options dictionary that always carries a format selection
expression. -/
theorem download_options_always_succeed (dir q : String) (a : Bool)
    (f : Option String) :
    ((get_download_options dir q a f).format).isSome = true := by
  unfold get_download_options
  cases a <;> simp only [if_true, if_false, Bool.false_eq_true, ite_false, ite_true]
  · by_cases h : pyTruthy f = true <;> simp [h]
  · rfl

/-- Claim C2, counterexample: the Best expression has four alternatives,
its first alternative is a merge of separately-fetched video and audio
streams (it contains the merge operator) rather than a combined stream,
the cap in it applies to the video part only (the audio part is
uncapped), and the second alternative is a combined capped stream with
no merge operator — refuting the claimed order (combined capped first,
then separately-fetched video and audio each capped). -/
theorem best_order_counterexample :
    (splitChar '/' (videoFormat "best").data).length = 4 ∧
    (splitChar '/' (videoFormat "best").data).head? =
      some ("bestvideo[height<=2160]+bestaudio").data ∧
    containsSeq ("+").data ("bestvideo[height<=2160]+bestaudio").data = true ∧
    containsSeq ("height").data ("bestaudio").data = false ∧
    (splitChar '/' (videoFormat "best").data)[1]? =
      some ("best[height<=2160]").data ∧
    containsSeq ("+").data ("best[height<=2160]").data = false := by
  decide

/-- Claim C2, amended: for a Best quality request the selection
expression's alternatives are, in order: separately-fetched best video
capped at 2160p merged with (uncapped) best audio; a combined stream
capped at 2160p; separately-fetched best video and best audio with no
caps; and an unconstrained best combined stream. -/
theorem best_alternatives :
    splitChar '/' (videoFormat "best").data =
      [ ("bestvideo[height<=2160]+bestaudio").data
      , ("best[height<=2160]").data
      , ("bestvideo+bestaudio").data
      , ("best").data ] := by
  decide

/-- Claim C6: the Best expression's first alternative contains the
2160 height cap, and its final fallback alternative carries no height
constraint at all. -/
theorem best_first_capped_last_unconstrained :
    (splitChar '/' (videoFormat "best").data).head? =
      some ("bestvideo[height<=2160]+bestaudio").data ∧
    containsSeq ("height<=2160").data ("bestvideo[height<=2160]+bestaudio").data
      = true ∧
    (splitChar '/' (videoFormat "best").data).getLast? = some ("best").data ∧
    containsSeq ("height").data ("best").data = false := by
  decide

/-- Claim C8: an audio-only request with no output-format override
selects "bestaudio/best" and configures audio extraction to the default
container mp3 at the fixed default quality target "192". -/
theorem audio_only_defaults (dir q : String) :
    (get_download_options dir q true none).format = some "bestaudio/best" ∧
    (get_download_options dir q true none).postprocessors =
      some [{ key := "FFmpegExtractAudio"
              preferredcodec := some "mp3"
              preferredquality := some "192" }] :=
  ⟨rfl, rfl⟩

/-- Claim C10: with audio_only set, the options dictionary is
independent of the quality argument. -/
theorem audio_options_quality_independent (dir q1 q2 : String)
    (f : Option String) :
    get_download_options dir q1 true f = get_download_options dir q2 true f :=
  rfl

/-- Translation of `validate_url`: the URL is non-empty (Python
truthiness) and contains one of the two recognised host substrings. -/
def validate_url (url : String) : Bool :=
  (url != "") &&
    (containsSeq ("youtube.com").data url.data ||
     containsSeq ("youtu.be").data url.data)

/-- Calls made to the external extractor/downloader collaborator. -/
inductive ExtCall where
  | extractInfo (url : String)
  | download (url : String)
deriving DecidableEq

/-- Control-flow skeleton of `get_video_info`: the URL guard runs first
and raises ValueError("Invalid YouTube URL") before any external call;
on a valid URL the external extractor is invoked once.  The second
component records the external-collaborator calls made. -/
def get_video_info_calls (url : String) : Except String Unit × List ExtCall :=
  if validate_url url then (Except.ok (), [ExtCall.extractInfo url])
  else (Except.error "Invalid YouTube URL", [])

/-- Control-flow skeleton of `download_video`: the URL guard runs first;
then download options are built, video info fetched, and the external
download invoked. -/
def download_video_calls (dir url quality : String) (audio_only : Bool)
    (output_format : Option String) : Except String Unit × List ExtCall :=
  if validate_url url then
    let _opts := get_download_options dir quality audio_only output_format
    match get_video_info_calls url with
    | (Except.ok _, c1) => (Except.ok (), c1 ++ [ExtCall.download url])
    | (Except.error e, c1) => (Except.error e, c1)
  else (Except.error "Invalid YouTube URL", [])

/-- Claim C9: a URL containing neither "youtube.com" nor "youtu.be"
fails validation, and both `get_video_info` and `download_video` raise
the usage error with no external-collaborator call performed. -/
theorem invalid_url_no_external_calls (url dir q : String) (a : Bool)
    (f : Option String)
    (h1 : containsSeq ("youtube.com").data url.data = false)
    (h2 : containsSeq ("youtu.be").data url.data = false) :
    validate_url url = false ∧
    get_video_info_calls url = (Except.error "Invalid YouTube URL", []) ∧
    download_video_calls dir url q a f =
      (Except.error "Invalid YouTube URL", []) := by
  have hv : validate_url url = false := by
    simp [validate_url, h1, h2]
  exact ⟨hv, by simp [get_video_info_calls, hv],
             by simp [download_video_calls, hv]⟩

/-- Claim C9, witness: a concrete non-YouTube URL is rejected by both
entry points with an empty external-call trace. -/
theorem invalid_url_no_external_calls_witness :
    validate_url "https://example.com/watch?v=abc" = false ∧
    get_video_info_calls "https://example.com/watch?v=abc" =
      (Except.error "Invalid YouTube URL", []) ∧
    download_video_calls "downloads" "https://example.com/watch?v=abc"
        "best" false none = (Except.error "Invalid YouTube URL", []) :=
  invalid_url_no_external_calls "https://example.com/watch?v=abc"
    "downloads" "best" false none (by decide) (by decide)

/-- A raw stream descriptor as reported by the external extractor;
`none` marks a key missing from the raw dictionary. -/
structure StreamDescriptor where
  format_id : Option String := none
  ext : Option String := none
  vcodec : Option String := none
  acodec : Option String := none
  height : Option Nat := none
  width : Option Nat := none
  fps : Option Nat := none
  filesize : Option Nat := none
  abr : Option Nat := none
  format_note : Option String := none
  url : Option String := none
deriving DecidableEq

/-- A processed format entry as built inside `get_available_formats`. -/
structure FormatInfo where
  id : Option String
  ext : String
  vcodec : String
  acodec : String
  height : Option Nat
  width : Option Nat
  fps : Option Nat
  filesize : Option Nat
  abr : Option Nat
  format_note : String
  url : String
  raw_format : StreamDescriptor
  type : String
  quality : String
  codec : String
  size_mb : Nat
deriving DecidableEq

/-- Python truthiness of an optional number: present and non-zero. -/
def pyTruthyNat (o : Option Nat) : Bool :=
  match o with
  | some n => n != 0
  | none => false

/-- Loop body of `get_available_formats` for one raw descriptor:
defaulting of missing keys, classification into the three kinds (with
the both-codecs-"none" case dropped via `continue`), the derived
quality and codec labels and the size in megabytes. -/
def processOne (f : StreamDescriptor) : Option FormatInfo :=
  let ext := f.ext.getD "unknown"
  let vcodec := f.vcodec.getD "none"
  let acodec := f.acodec.getD "none"
  let ty : Option String :=
    if vcodec != "none" && acodec != "none" then some "Video+Audio"
    else if vcodec != "none" then some "Video Only"
    else if acodec != "none" then some "Audio Only"
    else none
  match ty with
  | none => none
  | some type =>
    let quality :=
      if pyTruthyNat f.height then
        toString (f.height.getD 0) ++ "p" ++
          (if pyTruthyNat f.fps then " " ++ toString (f.fps.getD 0) ++ "fps"
           else "")
      else if pyTruthyNat f.abr then toString (f.abr.getD 0) ++ "kbps"
      else "Unknown"
    let codec := if type = "Audio Only" then acodec else vcodec
    let size_mb :=
      if pyTruthyNat f.filesize then f.filesize.getD 0 / 1024 / 1024 else 0
    some { id := f.format_id, ext := ext, vcodec := vcodec, acodec := acodec
           height := f.height, width := f.width, fps := f.fps
           filesize := f.filesize, abr := f.abr
           format_note := f.format_note.getD "", url := f.url.getD ""
           raw_format := f, type := type, quality := quality, codec := codec
           size_mb := size_mb }

/-- The processing loop of `get_available_formats` over the whole raw
catalog (before sorting); dropped descriptors produce no entry. -/
def processFormats (fs : List StreamDescriptor) : List FormatInfo :=
  fs.filterMap processOne

/-- Claim C5: classification of one raw descriptor.  A descriptor is
Video+Audio iff both codec fields are present and not "none"; Video
Only iff only the video codec is; Audio Only iff only the audio codec
is; and is dropped (appearing in no output of the processing loop) iff
both are "none". -/
theorem classification_characterization (d : StreamDescriptor) :
    ((processOne d).map (fun f => f.type) = some "Video+Audio" ↔
        d.vcodec.getD "none" ≠ "none" ∧ d.acodec.getD "none" ≠ "none") ∧
    ((processOne d).map (fun f => f.type) = some "Video Only" ↔
        d.vcodec.getD "none" ≠ "none" ∧ d.acodec.getD "none" = "none") ∧
    ((processOne d).map (fun f => f.type) = some "Audio Only" ↔
        d.vcodec.getD "none" = "none" ∧ d.acodec.getD "none" ≠ "none") ∧
    (processOne d = none ↔
        d.vcodec.getD "none" = "none" ∧ d.acodec.getD "none" = "none") ∧
    (∀ ds, processOne d = none → processFormats (d :: ds) = processFormats ds) := by
  by_cases hv : d.vcodec.getD "none" = "none" <;>
    by_cases ha : d.acodec.getD "none" = "none" <;>
      simp [processOne, processFormats, hv, ha]

/-- A sample raw descriptor carrying both codecs. -/
def sampleDescriptor : StreamDescriptor :=
  { vcodec := some "avc1", acodec := some "mp4a" }

/-- Claim C5, witness: the characterization instantiated at a concrete
descriptor with both codecs present. -/
theorem classification_characterization_witness :
    ((processOne sampleDescriptor).map (fun f => f.type) = some "Video+Audio" ↔
        sampleDescriptor.vcodec.getD "none" ≠ "none" ∧
        sampleDescriptor.acodec.getD "none" ≠ "none") ∧
    ((processOne sampleDescriptor).map (fun f => f.type) = some "Video Only" ↔
        sampleDescriptor.vcodec.getD "none" ≠ "none" ∧
        sampleDescriptor.acodec.getD "none" = "none") ∧
    ((processOne sampleDescriptor).map (fun f => f.type) = some "Audio Only" ↔
        sampleDescriptor.vcodec.getD "none" = "none" ∧
        sampleDescriptor.acodec.getD "none" ≠ "none") ∧
    (processOne sampleDescriptor = none ↔
        sampleDescriptor.vcodec.getD "none" = "none" ∧
        sampleDescriptor.acodec.getD "none" = "none") ∧
    (∀ ds, processOne sampleDescriptor = none →
        processFormats (sampleDescriptor :: ds) = processFormats ds) :=
  classification_characterization sampleDescriptor

/-- Priority of a kind label: the source's dictionary lookup with
default 3. -/
def type_priority (t : String) : Nat :=
  if t = "Video+Audio" then 0
  else if t = "Video Only" then 1
  else if t = "Audio Only" then 2
  else 3

/-- Sort key of `get_available_formats`: kind priority, then negated
height (a missing or zero height is treated as 0 by `or 0`). -/
def sort_key (f : FormatInfo) : Nat × Int :=
  (type_priority f.type, -(Int.ofNat (f.height.getD 0)))

/-- Lexicographic comparison of two sort keys, as Python compares the
key tuples returned by `sort_key`. -/
def keyLE (a b : Nat × Int) : Bool :=
  decide (a.1 < b.1) || (a.1 == b.1 && decide (a.2 ≤ b.2))

/-- Comparison of two processed formats by their sort keys. -/
def fmtLE (a b : FormatInfo) : Bool := keyLE (sort_key a) (sort_key b)

/-- Sorting step of `get_available_formats`.  Python's `list.sort` is a
stable sort; it is modelled by the stable `List.mergeSort`. -/
def sortFormats (l : List FormatInfo) : List FormatInfo := l.mergeSort fmtLE

/-- The pure part of `get_available_formats`: process the raw catalog,
then stably sort by the key. -/
def get_available_formats (fs : List StreamDescriptor) : List FormatInfo :=
  sortFormats (processFormats fs)

theorem keyLE_iff (a b : Nat × Int) :
    keyLE a b = true ↔ a.1 < b.1 ∨ (a.1 = b.1 ∧ a.2 ≤ b.2) := by
  simp [keyLE]

theorem fmtLE_trans (a b c : FormatInfo) :
    fmtLE a b = true → fmtLE b c = true → fmtLE a c = true := by
  unfold fmtLE
  rw [keyLE_iff, keyLE_iff, keyLE_iff]
  omega

theorem fmtLE_total (a b : FormatInfo) : fmtLE a b || fmtLE b a := by
  simp only [fmtLE, Bool.or_eq_true, keyLE_iff]
  omega

theorem fmtLE_of_key_eq {a b : FormatInfo} {k : Nat × Int}
    (ha : sort_key a = k) (hb : sort_key b = k) : fmtLE a b = true := by
  rw [fmtLE, ha, hb, keyLE_iff]
  omega

/-- Claim C3: the output of `get_available_formats` is sorted by kind
priority ascending and, within a kind, by height descending (missing
height as 0, encoded by the negated height in the key); the sort is
stable (for every key value, the output entries with that key are
exactly the input entries with that key in their original order); and
re-sorting the output yields the identical sequence. -/
theorem available_formats_sorted_stable_idempotent
    (fs : List StreamDescriptor) :
    (get_available_formats fs).Pairwise (fun a b =>
        (sort_key a).1 < (sort_key b).1 ∨
        ((sort_key a).1 = (sort_key b).1 ∧ (sort_key a).2 ≤ (sort_key b).2)) ∧
    (∀ k : Nat × Int,
        (get_available_formats fs).filter (fun f => decide (sort_key f = k)) =
          (processFormats fs).filter (fun f => decide (sort_key f = k))) ∧
    sortFormats (get_available_formats fs) = get_available_formats fs := by
  have hsorted : (get_available_formats fs).Pairwise (fun a b => fmtLE a b = true) :=
    List.sorted_mergeSort fmtLE_trans fmtLE_total (processFormats fs)
  refine ⟨hsorted.imp (fun h => ?_), fun k => ?_, ?_⟩
  · rw [fmtLE, keyLE_iff] at h
    exact h
  · have hall : ∀ x ∈ (processFormats fs).filter
        (fun f => decide (sort_key f = k)), sort_key x = k := by
      intro x hx
      simpa using (List.mem_filter.mp hx).2
    have hpw : ((processFormats fs).filter
        (fun f => decide (sort_key f = k))).Pairwise (fun a b => fmtLE a b = true) := by
      apply List.pairwise_of_forall_mem_list
      intro a ha b hb
      exact fmtLE_of_key_eq (hall a ha) (hall b hb)
    have hsub : List.Sublist
        ((processFormats fs).filter (fun f => decide (sort_key f = k)))
        (get_available_formats fs) :=
      List.sublist_mergeSort fmtLE_trans fmtLE_total hpw
        (List.filter_sublist (processFormats fs))
    have hfix : ((processFormats fs).filter (fun f => decide (sort_key f = k))).filter
        (fun f => decide (sort_key f = k)) =
        (processFormats fs).filter (fun f => decide (sort_key f = k)) := by
      rw [List.filter_eq_self]
      intro a ha
      simpa using hall a ha
    have hsub2 : List.Sublist
        ((processFormats fs).filter (fun f => decide (sort_key f = k)))
        ((get_available_formats fs).filter (fun f => decide (sort_key f = k))) := by
      have h2 := hsub.filter (fun f => decide (sort_key f = k))
      rwa [hfix] at h2
    have hperm : List.Perm
        ((get_available_formats fs).filter (fun f => decide (sort_key f = k)))
        ((processFormats fs).filter (fun f => decide (sort_key f = k))) :=
      (List.mergeSort_perm (processFormats fs) fmtLE).filter _
    exact (hsub2.eq_of_length hperm.length_eq.symm).symm
  · simp only [sortFormats]
    exact List.mergeSort_of_sorted hsorted

/-- One interactive menu entry built by `get_format_selection_options`. -/
structure SelectionOption where
  num : Nat
  type : String
  quality : String
  audio_only : Bool
  output_format : Option String := none
  description : String
  format_info : FormatInfo
deriving DecidableEq

/-- Python rendering of an optional number inside an f-string: a
missing value prints as "None". -/
def pyStrOptNat (o : Option Nat) : String :=
  match o with
  | some n => toString n
  | none => "None"

/-- The audio deduplication key of the source: the f-string
"acodec_ext_abr". -/
def audioKey (f : FormatInfo) : String :=
  f.acodec ++ "_" ++ f.ext ++ "_" ++ pyStrOptNat f.abr

/-- The video loop of `get_format_selection_options`: one option per
first-seen distinct truthy height, numbering from `n`, with the set of
already-shown resolutions threaded through. -/
def videoLoop : List FormatInfo → Nat → List Nat → List SelectionOption × Nat
  | [], n, _ => ([], n)
  | f :: rest, n, shown =>
    match f.height with
    | some h =>
      if h ≠ 0 ∧ h ∉ shown then
        let opt : SelectionOption :=
          { num := n, type := "video", quality := toString h
            audio_only := false
            description := toString h ++ "p " ++ f.ext ++ " " ++ f.codec.take 10
            format_info := f }
        let r := videoLoop rest (n + 1) (h :: shown)
        (opt :: r.1, r.2)
      else videoLoop rest n shown
    | none => videoLoop rest n shown

/-- The audio loop of `get_format_selection_options`: one option per
first-seen distinct key among the first three audio entries. -/
def audioLoop : List FormatInfo → Nat → List String → List SelectionOption × Nat
  | [], n, _ => ([], n)
  | f :: rest, n, shown =>
    if audioKey f ∉ shown then
      let opt : SelectionOption :=
        { num := n, type := "audio", quality := "best"
          audio_only := true
          output_format := some f.ext
          description := "Audio " ++ f.ext ++ " " ++ f.acodec ++ " "
            ++ pyStrOptNat f.abr ++ "kbps"
          format_info := f }
      let r := audioLoop rest (n + 1) (audioKey f :: shown)
      (opt :: r.1, r.2)
    else audioLoop rest n shown

/-- The pure part of `get_format_selection_options`, applied to the
normalized catalog: video options (one per distinct height) followed by
audio options from the first three audio entries, numbered from 1. -/
def get_format_selection_options (formats : List FormatInfo) :
    List SelectionOption :=
  let video_formats := formats.filter
    (fun f => f.type == "Video+Audio" || f.type == "Video Only")
  let v := videoLoop video_formats 1 []
  let audio_formats := formats.filter (fun f => f.type == "Audio Only")
  let a := audioLoop (audio_formats.take 3) v.2 []
  v.1 ++ a.1

theorem videoLoop_type : ∀ (fmts : List FormatInfo) (n : Nat) (shown : List Nat),
    ∀ o ∈ (videoLoop fmts n shown).1, o.type = "video"
  | [], _, _ => by simp [videoLoop]
  | f :: rest, n, shown => by
    intro o ho
    cases hh : f.height with
    | none =>
      simp only [videoLoop, hh] at ho
      exact videoLoop_type rest n shown o ho
    | some h =>
      simp only [videoLoop, hh] at ho
      by_cases hc : h ≠ 0 ∧ h ∉ shown
      · rw [if_pos hc] at ho
        rcases List.mem_cons.mp ho with h1 | h1
        · rw [h1]
        · exact videoLoop_type rest (n + 1) (h :: shown) o h1
      · rw [if_neg hc] at ho
        exact videoLoop_type rest n shown o ho

theorem videoLoop_fresh : ∀ (fmts : List FormatInfo) (n : Nat) (shown : List Nat),
    ∀ o ∈ (videoLoop fmts n shown).1,
      ∃ h, o.format_info.height = some h ∧ h ∉ shown
  | [], _, _ => by simp [videoLoop]
  | f :: rest, n, shown => by
    intro o ho
    cases hh : f.height with
    | none =>
      simp only [videoLoop, hh] at ho
      exact videoLoop_fresh rest n shown o ho
    | some h =>
      simp only [videoLoop, hh] at ho
      by_cases hc : h ≠ 0 ∧ h ∉ shown
      · rw [if_pos hc] at ho
        rcases List.mem_cons.mp ho with h1 | h1
        · exact ⟨h, by rw [h1]; exact hh, hc.2⟩
        · obtain ⟨h', hh', hs'⟩ := videoLoop_fresh rest (n + 1) (h :: shown) o h1
          exact ⟨h', hh', fun hm => hs' (List.mem_cons_of_mem h hm)⟩
      · rw [if_neg hc] at ho
        exact videoLoop_fresh rest n shown o ho

theorem videoLoop_nodup : ∀ (fmts : List FormatInfo) (n : Nat) (shown : List Nat),
    ((videoLoop fmts n shown).1.map (fun o => o.format_info.height)).Nodup
  | [], _, _ => by simp [videoLoop]
  | f :: rest, n, shown => by
    cases hh : f.height with
    | none =>
      simp only [videoLoop, hh]
      exact videoLoop_nodup rest n shown
    | some h =>
      simp only [videoLoop, hh]
      by_cases hc : h ≠ 0 ∧ h ∉ shown
      · rw [if_pos hc]
        simp only [List.map_cons, List.nodup_cons]
        refine ⟨?_, videoLoop_nodup rest (n + 1) (h :: shown)⟩
        intro hmem
        obtain ⟨o, ho, hkey⟩ := List.mem_map.mp hmem
        obtain ⟨h', hh', hs'⟩ := videoLoop_fresh rest (n + 1) (h :: shown) o ho
        rw [hh', hh] at hkey
        exact hs' (by rw [Option.some_inj.mp hkey]; exact List.mem_cons_self h _)
      · rw [if_neg hc]
        exact videoLoop_nodup rest n shown

theorem videoLoop_nums : ∀ (fmts : List FormatInfo) (n : Nat) (shown : List Nat),
    (videoLoop fmts n shown).1.map (fun o => o.num) =
      List.range' n (videoLoop fmts n shown).1.length ∧
    (videoLoop fmts n shown).2 = n + (videoLoop fmts n shown).1.length
  | [], _, _ => by simp [videoLoop]
  | f :: rest, n, shown => by
    cases hh : f.height with
    | none =>
      simp only [videoLoop, hh]
      exact videoLoop_nums rest n shown
    | some h =>
      simp only [videoLoop, hh]
      by_cases hc : h ≠ 0 ∧ h ∉ shown
      · rw [if_pos hc]
        obtain ⟨ih1, ih2⟩ := videoLoop_nums rest (n + 1) (h :: shown)
        constructor
        · simp only [List.map_cons, List.length_cons, ih1, List.range'_succ]
        · simp only [List.length_cons, ih2]
          omega
      · rw [if_neg hc]
        exact videoLoop_nums rest n shown

theorem audioLoop_type : ∀ (fmts : List FormatInfo) (n : Nat) (shown : List String),
    ∀ o ∈ (audioLoop fmts n shown).1, o.type = "audio"
  | [], _, _ => by simp [audioLoop]
  | f :: rest, n, shown => by
    intro o ho
    simp only [audioLoop] at ho
    by_cases hc : audioKey f ∉ shown
    · rw [if_pos hc] at ho
      rcases List.mem_cons.mp ho with h1 | h1
      · rw [h1]
      · exact audioLoop_type rest (n + 1) (audioKey f :: shown) o h1
    · rw [if_neg hc] at ho
      exact audioLoop_type rest n shown o ho

theorem audioLoop_fresh : ∀ (fmts : List FormatInfo) (n : Nat) (shown : List String),
    ∀ o ∈ (audioLoop fmts n shown).1, audioKey o.format_info ∉ shown
  | [], _, _ => by simp [audioLoop]
  | f :: rest, n, shown => by
    intro o ho
    simp only [audioLoop] at ho
    by_cases hc : audioKey f ∉ shown
    · rw [if_pos hc] at ho
      rcases List.mem_cons.mp ho with h1 | h1
      · rw [h1]
        exact hc
      · have := audioLoop_fresh rest (n + 1) (audioKey f :: shown) o h1
        exact fun hm => this (List.mem_cons_of_mem _ hm)
    · rw [if_neg hc] at ho
      exact audioLoop_fresh rest n shown o ho

theorem audioLoop_nodup : ∀ (fmts : List FormatInfo) (n : Nat) (shown : List String),
    ((audioLoop fmts n shown).1.map (fun o => audioKey o.format_info)).Nodup
  | [], _, _ => by simp [audioLoop]
  | f :: rest, n, shown => by
    simp only [audioLoop]
    by_cases hc : audioKey f ∉ shown
    · rw [if_pos hc]
      simp only [List.map_cons, List.nodup_cons]
      refine ⟨?_, audioLoop_nodup rest (n + 1) (audioKey f :: shown)⟩
      intro hmem
      obtain ⟨o, ho, hkey⟩ := List.mem_map.mp hmem
      have := audioLoop_fresh rest (n + 1) (audioKey f :: shown) o ho
      exact this (by rw [hkey]; exact List.mem_cons_self _ _)
    · rw [if_neg hc]
      exact audioLoop_nodup rest n shown

theorem audioLoop_nums : ∀ (fmts : List FormatInfo) (n : Nat) (shown : List String),
    (audioLoop fmts n shown).1.map (fun o => o.num) =
      List.range' n (audioLoop fmts n shown).1.length ∧
    (audioLoop fmts n shown).2 = n + (audioLoop fmts n shown).1.length
  | [], _, _ => by simp [audioLoop]
  | f :: rest, n, shown => by
    simp only [audioLoop]
    by_cases hc : audioKey f ∉ shown
    · rw [if_pos hc]
      obtain ⟨ih1, ih2⟩ := audioLoop_nums rest (n + 1) (audioKey f :: shown)
      constructor
      · simp only [List.map_cons, List.length_cons, ih1, List.range'_succ]
      · simp only [List.length_cons, ih2]
        omega
    · rw [if_neg hc]
      exact audioLoop_nums rest n shown

theorem audioLoop_len : ∀ (fmts : List FormatInfo) (n : Nat) (shown : List String),
    (audioLoop fmts n shown).1.length ≤ fmts.length
  | [], _, _ => by simp [audioLoop]
  | f :: rest, n, shown => by
    simp only [audioLoop]
    by_cases hc : audioKey f ∉ shown
    · rw [if_pos hc]
      simpa using audioLoop_len rest (n + 1) (audioKey f :: shown)
    · rw [if_neg hc]
      exact Nat.le_succ_of_le (audioLoop_len rest n shown)

/-- Claim C4: in the option list built from any catalog, no two video
options share a height; there are at most three audio options, no two
of which share the (audio codec, extension, bitrate) triple; and the
ordinals are 1, 2, ... sequentially across the video-then-audio list. -/
theorem selection_options_invariants (formats : List FormatInfo) :
    (((get_format_selection_options formats).filter
        (fun o => o.type == "video")).map (fun o => o.format_info.height)).Nodup ∧
    ((get_format_selection_options formats).filter
        (fun o => o.type == "audio")).length ≤ 3 ∧
    (((get_format_selection_options formats).filter
        (fun o => o.type == "audio")).map
        (fun o => (o.format_info.acodec, o.format_info.ext, o.format_info.abr))).Nodup ∧
    (get_format_selection_options formats).map (fun o => o.num) =
      List.range' 1 (get_format_selection_options formats).length := by
  have hdef : get_format_selection_options formats =
      (videoLoop (formats.filter
        (fun f => f.type == "Video+Audio" || f.type == "Video Only")) 1 []).1 ++
      (audioLoop ((formats.filter (fun f => f.type == "Audio Only")).take 3)
        (videoLoop (formats.filter
          (fun f => f.type == "Video+Audio" || f.type == "Video Only")) 1 []).2 []).1 :=
    rfl
  set vf := formats.filter
    (fun f => f.type == "Video+Audio" || f.type == "Video Only") with hvf
  set af := (formats.filter (fun f => f.type == "Audio Only")).take 3 with haf
  have hvideo : (videoLoop vf 1 []).1.filter (fun o => o.type == "video") =
      (videoLoop vf 1 []).1 := by
    rw [List.filter_eq_self]
    intro o ho
    simp [videoLoop_type vf 1 [] o ho]
  have hvideoa : (audioLoop af (videoLoop vf 1 []).2 []).1.filter
      (fun o => o.type == "video") = [] := by
    rw [List.filter_eq_nil_iff]
    intro o ho
    simp [audioLoop_type af (videoLoop vf 1 []).2 [] o ho]
  have haudio : (audioLoop af (videoLoop vf 1 []).2 []).1.filter
      (fun o => o.type == "audio") = (audioLoop af (videoLoop vf 1 []).2 []).1 := by
    rw [List.filter_eq_self]
    intro o ho
    simp [audioLoop_type af (videoLoop vf 1 []).2 [] o ho]
  have haudiov : (videoLoop vf 1 []).1.filter (fun o => o.type == "audio") = [] := by
    rw [List.filter_eq_nil_iff]
    intro o ho
    simp [videoLoop_type vf 1 [] o ho]
  refine ⟨?_, ?_, ?_, ?_⟩
  · rw [hdef, List.filter_append, hvideo, hvideoa, List.append_nil]
    exact videoLoop_nodup vf 1 []
  · rw [hdef, List.filter_append, haudiov, haudio, List.nil_append]
    exact Nat.le_trans (audioLoop_len af (videoLoop vf 1 []).2 [])
      (List.length_take_le 3 _)
  · rw [hdef, List.filter_append, haudiov, haudio, List.nil_append]
    have hkeys := audioLoop_nodup af (videoLoop vf 1 []).2 []
    have hmm : (audioLoop af (videoLoop vf 1 []).2 []).1.map
        (fun o => audioKey o.format_info) =
        ((audioLoop af (videoLoop vf 1 []).2 []).1.map
          (fun o => (o.format_info.acodec, o.format_info.ext, o.format_info.abr))).map
          (fun t => t.1 ++ "_" ++ t.2.1 ++ "_" ++ pyStrOptNat t.2.2) := by
      rw [List.map_map]
      rfl
    rw [hmm] at hkeys
    exact List.Nodup.of_map _ hkeys
  · rw [hdef, List.map_append, List.length_append]
    obtain ⟨hv1, hv2⟩ := videoLoop_nums vf 1 []
    obtain ⟨ha1, ha2⟩ := audioLoop_nums af (videoLoop vf 1 []).2 []
    rw [hv1, ha1, hv2, List.range'_append_1, Nat.add_comm]

theorem isPrefOf_iff : ∀ (p l : List Char), isPrefOf p l = true ↔ ∃ t, l = p ++ t
  | [], l => by simp [isPrefOf]
  | a :: as, [] => by simp [isPrefOf]
  | a :: as, b :: bs => by
    simp only [isPrefOf, Bool.and_eq_true, beq_iff_eq, isPrefOf_iff as bs,
      List.cons_append, List.cons.injEq]
    constructor
    · rintro ⟨rfl, t, rfl⟩
      exact ⟨t, rfl, rfl⟩
    · rintro ⟨t, rfl, rfl⟩
      exact ⟨rfl, t, rfl⟩

theorem containsSeq_iff (p : List Char) :
    ∀ (l : List Char), containsSeq p l = true ↔ ∃ a b, l = a ++ p ++ b
  | [] => by
    simp only [containsSeq, List.isEmpty_iff]
    constructor
    · rintro rfl
      exact ⟨[], [], rfl⟩
    · rintro ⟨a, b, hab⟩
      rcases List.append_eq_nil.mp hab.symm with ⟨h1, h2⟩
      exact (List.append_eq_nil.mp h1).2
  | c :: rest => by
    simp only [containsSeq, Bool.or_eq_true, isPrefOf_iff, containsSeq_iff p rest]
    constructor
    · rintro (⟨t, ht⟩ | ⟨a, b, hab⟩)
      · exact ⟨[], t, by simpa using ht⟩
      · exact ⟨c :: a, b, by simp [hab]⟩
    · rintro ⟨a, b, hab⟩
      cases a with
      | nil =>
        exact Or.inl ⟨b, by simpa using hab⟩
      | cons a0 as =>
        simp only [List.cons_append, List.cons.injEq] at hab
        exact Or.inr ⟨as, b, hab.2⟩

theorem containsSeq_mono (p q l : List Char)
    (h : containsSeq (p ++ q) l = true) : containsSeq p l = true := by
  rw [containsSeq_iff] at h ⊢
  obtain ⟨a, b, rfl⟩ := h
  exact ⟨a, q ++ b, by simp⟩

theorem splitChar_no_sep (c : Char) :
    ∀ (a : List Char), (∀ x ∈ a, x ≠ c) → splitChar c a = [a]
  | [], _ => rfl
  | x :: xs, h => by
    have hx : ¬ x = c := h x (List.mem_cons_self x xs)
    simp only [splitChar, if_neg hx, splitChar_no_sep c xs
      (fun y hy => h y (List.mem_cons_of_mem x hy))]
    rfl

theorem splitChar_append_sep (c : Char) :
    ∀ (a b : List Char), (∀ x ∈ a, x ≠ c) →
      splitChar c (a ++ c :: b) = a :: splitChar c b
  | [], b, _ => by simp [splitChar]
  | x :: xs, b, h => by
    have hx : ¬ x = c := h x (List.mem_cons_self x xs)
    have ih := splitChar_append_sep c xs b
      (fun y hy => h y (List.mem_cons_of_mem x hy))
    simp only [List.cons_append, splitChar, if_neg hx, List.append_eq] at ih ⊢
    rw [ih]
    rfl

theorem eqOk_append : ∀ (a : List Char) (b : List Char) (q : Char),
    eqOk q (a ++ b) = (eqOk q a && eqOk (a.getLastD q) b)
  | [], b, q => by simp [eqOk]
  | x :: xs, b, q => by
    have ih := eqOk_append xs b x
    simp only [List.cons_append, eqOk, List.getLastD_cons, List.append_eq] at ih ⊢
    rw [ih, Bool.and_assoc]

theorem eqOk_append_true {a b : List Char} {q : Char}
    (h1 : eqOk q a = true) (h2 : ∀ r, eqOk r b = true) :
    eqOk q (a ++ b) = true := by
  rw [eqOk_append, h1, h2]
  rfl

theorem eqOk_cons_ne {c : Char} (q : Char) (l : List Char)
    (h : (c != '=') = true) : eqOk q (c :: l) = eqOk c l := by
  simp [eqOk, h]

theorem eqOk_digits : ∀ (l : List Char), (∀ x ∈ l, x.isDigit = true) →
    ∀ q, eqOk q l = true
  | [], _, _ => rfl
  | c :: rest, h, q => by
    have hc : (c != '=') = true := by
      simp only [bne_iff_ne, ne_eq]
      intro he
      subst he
      exact absurd (h '=' (List.mem_cons_self _ _)) (by decide)
    rw [eqOk_cons_ne q rest hc]
    exact eqOk_digits rest (fun y hy => h y (List.mem_cons_of_mem c hy)) c

theorem eqOk_of_contains_heightEq (l : List Char) (q : Char)
    (h : containsSeq ("height=").data l = true) : eqOk q l = false := by
  rw [containsSeq_iff] at h
  obtain ⟨a, b, rfl⟩ := h
  rw [List.append_assoc, eqOk_append]
  have hfalse : ∀ r, eqOk r (("height=").data ++ b) = false := by
    intro r
    rw [show ("height=").data ++ b =
      'h' :: 'e' :: 'i' :: 'g' :: 'h' :: 't' :: '=' :: b from rfl]
    simp [eqOk]
  rw [hfalse]
  exact Bool.and_false _

theorem videoFormat_digits (s : String) (hd : ∀ c ∈ s.data, c.isDigit = true) :
    videoFormat s = "bestvideo[height<=" ++ s ++ "]+bestaudio/best[height<=" ++ s
      ++ "]/best[height<=" ++ s ++ "]" := by
  unfold videoFormat
  split_ifs with h1 h2 h3 h4 h5 h6 h7 h8
  · subst h1
    exact absurd (hd 'b' (by decide)) (by decide)
  · subst h2
    exact absurd (hd 'w' (by decide)) (by decide)
  · rcases h3 with h3 | h3
    · subst h3
      exact absurd (hd 'k' (by decide)) (by decide)
    · subst h3
      rfl
  · subst h4
    rfl
  · subst h5
    rfl
  · subst h6
    rfl
  · subst h7
    rfl
  · subst h8
    rfl
  · rfl

/-- Claim C7: for a numeric height request (a quality string of digits)
every alternative of the selection expression contains the constraint
"height<=" followed by the requested height; the expression nowhere
contains "height=" followed by the height; and every equals sign in the
expression is part of the ≤ comparator (immediately preceded by a
less-than sign), never a bare equality comparator. -/
theorem numeric_quality_uses_le_comparators (s : String)
    (hd : ∀ c ∈ s.data, c.isDigit = true) :
    (∀ alt ∈ splitChar '/' (videoFormat s).data,
        containsSeq (("height<=").data ++ s.data) alt = true) ∧
    containsSeq (("height=").data ++ s.data) (videoFormat s).data = false ∧
    eqOk ' ' (videoFormat s).data = true := by
  have hs' : ∀ x ∈ s.data, x ≠ '/' := by
    intro c hc he
    subst he
    exact absurd (hd '/' hc) (by decide)
  have hv := videoFormat_digits s hd
  have c1 : ∀ x ∈ ("bestvideo[height<=").data, x ≠ '/' := by decide
  have c2 : ∀ x ∈ ("]+bestaudio").data, x ≠ '/' := by decide
  have c3 : ∀ x ∈ ("best[height<=").data, x ≠ '/' := by decide
  have c4 : ∀ x ∈ ("]").data, x ≠ '/' := by decide
  have hA1 : ∀ x ∈ ("bestvideo[height<=").data ++ s.data ++ ("]+bestaudio").data,
      x ≠ '/' := by
    intro x hx
    rcases List.mem_append.mp hx with hx | hx
    · rcases List.mem_append.mp hx with hx | hx
      · exact c1 x hx
      · exact hs' x hx
    · exact c2 x hx
  have hA2 : ∀ x ∈ ("best[height<=").data ++ s.data ++ ("]").data, x ≠ '/' := by
    intro x hx
    rcases List.mem_append.mp hx with hx | hx
    · rcases List.mem_append.mp hx with hx | hx
      · exact c3 x hx
      · exact hs' x hx
    · exact c4 x hx
  have hdata : (videoFormat s).data =
      (("bestvideo[height<=").data ++ s.data ++ ("]+bestaudio").data) ++ '/' ::
        ((("best[height<=").data ++ s.data ++ ("]").data) ++ '/' ::
          (("best[height<=").data ++ s.data ++ ("]").data)) := by
    rw [hv]
    simp [String.data_append, List.append_assoc]
  have hsplit : splitChar '/' (videoFormat s).data =
      [ ("bestvideo[height<=").data ++ s.data ++ ("]+bestaudio").data,
        ("best[height<=").data ++ s.data ++ ("]").data,
        ("best[height<=").data ++ s.data ++ ("]").data ] := by
    rw [hdata, splitChar_append_sep _ _ _ hA1, splitChar_append_sep _ _ _ hA2,
        splitChar_no_sep _ _ hA2]
  have hc1 : containsSeq (("height<=").data ++ s.data)
      (("bestvideo[height<=").data ++ s.data ++ ("]+bestaudio").data) = true := by
    rw [containsSeq_iff]
    refine ⟨("bestvideo[").data, ("]+bestaudio").data, ?_⟩
    rw [show ("bestvideo[height<=").data =
      ("bestvideo[").data ++ ("height<=").data from rfl]
    simp [List.append_assoc]
  have hc2 : containsSeq (("height<=").data ++ s.data)
      (("best[height<=").data ++ s.data ++ ("]").data) = true := by
    rw [containsSeq_iff]
    refine ⟨("best[").data, ("]").data, ?_⟩
    rw [show ("best[height<=").data =
      ("best[").data ++ ("height<=").data from rfl]
    simp [List.append_assoc]
  have eQ1 : ∀ q, eqOk q ("]+bestaudio/best[height<=").data = true := by
    intro q
    rw [show ("]+bestaudio/best[height<=").data =
      ']' :: ("+bestaudio/best[height<=").data from rfl]
    rw [eqOk_cons_ne q _ (by decide)]
    decide
  have eQ2 : ∀ q, eqOk q ("]/best[height<=").data = true := by
    intro q
    rw [show ("]/best[height<=").data =
      ']' :: ("/best[height<=").data from rfl]
    rw [eqOk_cons_ne q _ (by decide)]
    decide
  have eQ3 : ∀ q, eqOk q ("]").data = true := by
    intro q
    rw [show ("]").data = ']' :: ([] : List Char) from rfl]
    rw [eqOk_cons_ne q _ (by decide)]
    rfl
  have heq : eqOk ' ' (videoFormat s).data = true := by
    have hgrp : (videoFormat s).data =
        ("bestvideo[height<=").data ++ (s.data ++
          (("]+bestaudio/best[height<=").data ++ (s.data ++
            (("]/best[height<=").data ++ (s.data ++ ("]").data))))) := by
      rw [hv]
      simp [String.data_append, List.append_assoc]
    rw [hgrp]
    apply eqOk_append_true (by decide)
    intro r
    apply eqOk_append_true (eqOk_digits s.data hd r)
    intro r2
    apply eqOk_append_true (eQ1 r2)
    intro r3
    apply eqOk_append_true (eqOk_digits s.data hd r3)
    intro r4
    apply eqOk_append_true (eQ2 r4)
    intro r5
    apply eqOk_append_true (eqOk_digits s.data hd r5)
    intro r6
    exact eQ3 r6
  have hne : containsSeq (("height=").data ++ s.data) (videoFormat s).data
      = false := by
    cases hb : containsSeq (("height=").data ++ s.data) (videoFormat s).data with
    | false => rfl
    | true =>
      have h1 := containsSeq_mono ("height=").data s.data _ hb
      have h2 := eqOk_of_contains_heightEq _ ' ' h1
      rw [heq] at h2
      exact absurd h2 (by decide)
  refine ⟨?_, hne, heq⟩
  intro alt halt
  rw [hsplit] at halt
  simp only [List.mem_cons, List.not_mem_nil, or_false] at halt
  rcases halt with rfl | rfl | rfl
  · exact hc1
  · exact hc2
  · exact hc2

/-- Claim C7, witness: the numeric height request "720" instantiates
the ≤-comparator property. -/
theorem numeric_quality_uses_le_comparators_witness :
    (∀ alt ∈ splitChar '/' (videoFormat "720").data,
        containsSeq (("height<=").data ++ ("720").data) alt = true) ∧
    containsSeq (("height=").data ++ ("720").data) (videoFormat "720").data
      = false ∧
    eqOk ' ' (videoFormat "720").data = true :=
  numeric_quality_uses_le_comparators "720" (by decide)

end YTD
